import Mathlib

/-!
# Shallow embedding of DoubleGameVision's `test_two_source/App/main.cpp`

The program loads images from a directory, locates circular cards, rescales
them to a uniform size, extracts symbol objects from each card and decides,
for each pair of cards, whether they share a symbol by matching local
feature descriptors.

Embedding conventions:

* Descriptor vectors are lists of rationals; the FLANN L2 matcher's distance
  is modelled as the squared L2 distance over those rationals.  The `float`
  threshold literal `0.30` is modelled as the exact rational `3/10`; only
  its order relative to the (externally produced) distances matters for the
  properties proved here.
* OpenCV's `DescriptorMatcher` (`add`/`train` on `descriptors_1`, then
  `match(descriptors_2, ...)`) returns, for each query descriptor, the
  nearest trained descriptor with its distance.  The FLANN-based matcher
  cannot build an index over an empty trained descriptor matrix:
  `matcher->train()` on an empty `descriptors_1` raises an uncaught
  `cv::Exception` that aborts the program.  `trainAndMatch` and
  `symbolCompare` model this error path faithfully (`Except`); the total
  functions `matchDescriptors`/`symbolMatch`/`matchVerdict` model the
  successful path (on which the query-side guard in `knnMatch` does make
  an empty query set yield an empty match list) and feed the orchestration
  model, whose loop-structure properties do not depend on the degenerate
  case.  `std::sort` over `cv::DMatch` (ordered by `distance`) is modelled
  by `insertionSort` on the distance order; any comparison sort is
  permutation-equivalent, which is all the downstream count depends on.
* Card detection, uniform resizing, object extraction and descriptor
  extraction live in `CardDetector`/OpenCV outside this translation unit;
  their results enter the model as environment data: a card is the list of
  its objects' descriptor sets.
* The global `VERBOSE` flag is `false` in the source, so the
  verbose-only debug branches (which are the only readers of
  `matchedKeypoints[0]`) are dead code and are not modelled.
-/

namespace DGV

/-- A local feature descriptor: a fixed-length numeric vector
(`cv::Mat` row of the AKAZE/KAZE descriptor matrix). -/
abbrev Descriptor := List ℚ

/-- `cv::DMatch`: a candidate correspondence between query descriptor
`queryIdx` (card B's object) and trained descriptor `trainIdx`
(card A's object), with its distance. -/
structure DMatch where
  queryIdx : ℕ
  trainIdx : ℕ
  distance : ℚ
deriving Repr, DecidableEq

/-- Squared L2 distance between two descriptor vectors (the metric used by
the FLANN-based matcher on floating-point descriptors). -/
def l2sq (a b : Descriptor) : ℚ :=
  (List.zipWith (fun x y => (x - y) * (x - y)) a b).sum

/-- Nearest-neighbour lookup of query `q` in the trained descriptor list:
the index of a trained descriptor minimising the distance to `q`, together
with that distance; `none` when the trained set is empty. -/
def bestFrom (q : Descriptor) : List Descriptor → Option (ℕ × ℚ)
  | [] => none
  | d :: rest =>
    match bestFrom q rest with
    | none => some (0, l2sq d q)
    | some (j, dj) =>
      if dj < l2sq d q then some (j + 1, dj) else some (0, l2sq d q)

/-- The query loop of `matcher->match(descriptors_2, matchedKeypoints)`:
query descriptors are consumed in order, `k` is the index of the head of the
remaining query list; each query with a nonempty trained set contributes one
`DMatch`. -/
def matchFromIdx (descA : List Descriptor) : ℕ → List Descriptor → List DMatch
  | _, [] => []
  | k, q :: rest =>
    match bestFrom q descA with
    | none => matchFromIdx descA (k + 1) rest
    | some (j, d) => ⟨k, j, d⟩ :: matchFromIdx descA (k + 1) rest

/-- The successful path of `matcher->match(descriptors_2,
matchedKeypoints)`: one candidate pair per descriptor of `descB`.  The
real call sequence only reaches the query once training succeeded, i.e.
with a nonempty `descA` (see `trainAndMatch` for the faithful aborting
behaviour on an empty one); this total ok-path model returns `[]` there. -/
def matchDescriptors (descA descB : List Descriptor) : List DMatch :=
  matchFromIdx descA 0 descB

/-- `std::sort(matchedKeypoints.begin(), matchedKeypoints.end())`;
`cv::DMatch::operator<` compares by `distance`. -/
def sortMatches (ms : List DMatch) : List DMatch :=
  ms.insertionSort (fun a b => a.distance < b.distance)

/-- `float goodDistance = 0.30;` -/
def goodDistance : ℚ := 3 / 10

/-- `int goodMatchesMinLimit = 10;` -/
def goodMatchesMinLimit : ℕ := 10

/-- The "Select good matches" loop: keep the candidate pairs whose
distance is strictly below the threshold `t`. -/
def goodMatchesOf (ms : List DMatch) (t : ℚ) : List DMatch :=
  ms.filter (fun m => m.distance < t)

/-- The per-object-pair comparison body: match `descB` against the index
trained on `descA`, sort, select good matches; return the good pairs and
the verdict `goodMatches.size() >= goodMatchesMinLimit`. -/
def symbolMatch (descA descB : List Descriptor) : List DMatch × Bool :=
  let sorted := sortMatches (matchDescriptors descA descB)
  let good := goodMatchesOf sorted goodDistance
  (good, decide (goodMatchesMinLimit ≤ good.length))

/-- The match verdict for one object pair. -/
def matchVerdict (descA descB : List Descriptor) : Bool :=
  (symbolMatch descA descB).2

/-- The uncaught `cv::Exception` raised by the matcher call sequence:
`FlannBasedMatcher::train()` cannot build a FLANN index over an empty
trained descriptor matrix. -/
inductive MatchError where
  | flannTrainEmpty
deriving Repr, DecidableEq

/-- The faithful `matcher->clear(); matcher->add(descriptors_1);
matcher->train(); matcher->match(descriptors_2, matchedKeypoints)`
sequence: with an empty `descriptors_1` the `train()` call raises an
uncaught `cv::Exception` (no try/catch in `main`, the program aborts);
otherwise the query produces one candidate pair per `descB` descriptor
(an empty `descB` passes the `knnMatch` guard and yields no pairs). -/
def trainAndMatch (descA descB : List Descriptor) :
    Except MatchError (List DMatch) :=
  if descA.isEmpty then .error .flannTrainEmpty
  else .ok (matchFromIdx descA 0 descB)

/-- The full per-object-pair comparison body with the error path: train
and match, then sort, select good matches and form the verdict. -/
def symbolCompare (descA descB : List Descriptor) :
    Except MatchError (List DMatch × Bool) :=
  (trainAndMatch descA descB).map fun ms =>
    let good := goodMatchesOf (sortMatches ms) goodDistance
    (good, decide (goodMatchesMinLimit ≤ good.length))

/-! ## Orchestration over cards and objects

`uniCards` is consumed by `takeFirst`; the taken card is compared against
every remaining card; per card pair the objects of card one are scanned
(`for i`), and for each the objects of card two (`for j`), with a `break`
out of the `j` loop on a match and a `break` out of the `i` loop when
`matchFound`.  A card is modelled by the descriptor sets of its extracted
objects (object extraction and `detectAndCompute` are external). -/

/-- The descriptor set of one extracted object. -/
abbrev Obj := List Descriptor

/-- A (uniform-size) card, as the descriptor sets of its objects. -/
abbrev Card := List Obj

/-- One performed object-pair comparison: object `i` of card one against
object `j` of card two, with the resulting verdict. -/
structure Event where
  i : ℕ
  j : ℕ
  verdict : Bool
deriving Repr, DecidableEq

/-- The `for j` loop over card two's objects for a fixed object (descriptor
set `dA`, index `i`) of card one: records each comparison, stops right
after the first true verdict (`break`); also returns `matchFound`. -/
def innerScan (dA : Obj) (i : ℕ) : ℕ → List Obj → List Event × Bool
  | _, [] => ([], false)
  | j, b :: rest =>
    if matchVerdict dA b then ([⟨i, j, true⟩], true)
    else
      let r := innerScan dA i (j + 1) rest
      (⟨i, j, false⟩ :: r.1, r.2)

/-- The `for i` loop over card one's objects: each object is scanned against
all of card two's objects; when `matchFound` the loop `break`s. -/
def outerScan : ℕ → List Obj → List Obj → List Event
  | _, [], _ => []
  | i, a :: restA, objsB =>
    let r := innerScan a i 0 objsB
    if r.2 then r.1 else r.1 ++ outerScan (i + 1) restA objsB

/-- All object-pair comparisons performed for one card pair. -/
def compareCards (objsA objsB : Card) : List Event :=
  outerScan 0 objsA objsB

/-- The `while (!uniCards.isEmpty())` / `takeFirst` / `foreach anotherCard`
structure: card `a` is compared against each later card in order, then the
loop continues with the remaining cards.  Produces, per card pair `(a, b)`,
the comparison events of that pair. -/
def orchestrateFrom : ℕ → List Card → List ((ℕ × ℕ) × List Event)
  | _, [] => []
  | a, card :: rest =>
    (rest.enum.map fun p => ((a, a + 1 + p.1), compareCards card p.2)) ++
      orchestrateFrom (a + 1) rest

/-- Comparison trace of the whole card batch. -/
def orchestrate (cards : List Card) : List ((ℕ × ℕ) × List Event) :=
  orchestrateFrom 0 cards

/-! ## Image resize (pre-processing) -/

/-- Pixel dimensions of a `cv::Mat`. -/
structure ImSize where
  rows : ℕ
  cols : ℕ
deriving Repr, DecidableEq

/-- `cvRound` (used by `saturate_cast<int>` on the scaled dimensions in
`cv::resize`): round to nearest, ties to even.  Saturation is immaterial
here since the scaled dimensions lie in `[0, 700]`. -/
def cvRound (x : ℚ) : ℤ :=
  let f := ⌊x⌋
  let r := x - f
  if r < 1 / 2 then f
  else if 1 / 2 < r then f + 1
  else if f % 2 = 0 then f else f + 1

/-- `int limit = 700;` -/
def sizeLimit : ℕ := 700

/-- The resize step of `main`: when the larger dimension exceeds `limit`,
rescale with the single factor `f = limit * 1.0 / dim` in both axes
(`cv::resize` maps `cols` to `cvRound(cols*f)` and `rows` to
`cvRound(rows*f)`); otherwise the image is left as is. -/
def resizeToLimit (s : ImSize) : ImSize :=
  let dim := max s.rows s.cols
  if sizeLimit < dim then
    let f : ℚ := (sizeLimit : ℚ) / (dim : ℚ)
    { rows := (cvRound ((s.rows : ℚ) * f)).toNat
      cols := (cvRound ((s.cols : ℚ) * f)).toNat }
  else s

/-! ## Card-size constants -/

/-- `int cardSizeMin = 100;` -/
def cardSizeMin : ℕ := 100

/-- `int cardSizeMax = 400;` -/
def cardSizeMax : ℕ := 400

/-- `int uniDim = (cardSizeMin + cardSizeMax)/2;` (C++ integer division). -/
def uniDim : ℕ := (cardSizeMin + cardSizeMax) / 2

/-! ## Entry point

`main` parses `argc`, checks the directory, lists `*.jpg/*.png/*.tif`
files, hard-selects `files[3]`, and processes that single file (the
`foreach` body ends in `return 0`, so exactly one file is ever processed).
Externals enter through an environment: whether the directory exists, the
matching file listing, and the detected cards (as object descriptor sets,
`uniformSize` being a per-card resize that preserves the card count) of
the selected file. -/

/-- The observable messages of a run (`SD_TRACE*`/`SD_ERR`; the `help()`
usage text is one token; visualisation windows are not part of the trace). -/
inductive Msg where
  | usage
  | pathNotFound
  | noImagesFound
  | openFile
  | uniformSize
  | noCardsFound
  | matchFound (i j : ℕ)
deriving Repr, DecidableEq

/-- Environment of one invocation: argument count, directory existence,
the matching file listing (names abstracted), and the cards detected on
the selected file. -/
structure Env where
  argc : ℕ
  dirExists : Bool
  files : List ℕ
  cards : List Card
deriving Repr, DecidableEq

/-- Outcome of a run: `exit code trace`, or `crash trace` for the undefined
behaviour of an out-of-bounds `QStringList` index. -/
inductive Outcome where
  | crash (trace : List Msg)
  | exit (code : ℤ) (trace : List Msg)
deriving Repr, DecidableEq

/-- The trace of an outcome. -/
def Outcome.trace : Outcome → List Msg
  | .crash t => t
  | .exit _ t => t

/-- The `SD_TRACE2("Match found between object %1 ... %2 ...")` messages
emitted while orchestrating. -/
def matchMsgs (recs : List ((ℕ × ℕ) × List Event)) : List Msg :=
  recs.flatMap fun pr =>
    pr.2.filterMap fun e =>
      if e.verdict then some (.matchFound e.i e.j) else none

/-- The per-file body of `main`'s loop, from `SD_TRACE1("Open file ...")`
to the `return 0` that ends the first iteration. -/
def processFile (cards : List Card) : ℤ × List Msg :=
  if cards.isEmpty then (0, [.openFile, .noCardsFound])
  else (0, [.openFile, .uniformSize] ++ matchMsgs (orchestrate cards))

/-- `main`: usage exit (status 0) when `argc != 2`; status 1 when the path
does not exist; status 1 plus usage when no matching image file is found;
then the hard-coded `files[3]` selection, which is an out-of-bounds index
(undefined behaviour, modelled as `crash`) unless a fourth file exists. -/
def run (env : Env) : Outcome :=
  if env.argc ≠ 2 then .exit 0 [.usage]
  else if !env.dirExists then .exit 1 [.pathNotFound]
  else if env.files.isEmpty then .exit 1 [.noImagesFound, .usage]
  else
    match env.files[3]? with
    | none => .crash []
    | some _ =>
      let r := processFile env.cards
      .exit r.1 r.2

/-! ## Supporting lemmas -/

theorem goodMatchesOf_length (ms : List DMatch) (t : ℚ) :
    (goodMatchesOf ms t).length = ms.countP (fun m => m.distance < t) :=
  (ms.countP_eq_length_filter _).symm

theorem sortMatches_perm (ms : List DMatch) : List.Perm (sortMatches ms) ms :=
  List.perm_insertionSort _ ms

/-! ## C7 -/

/-- C7: the canonical card dimension `uniDim` is the integer midpoint
`(cardSizeMin + cardSizeMax) / 2 = (100 + 400) / 2 = 250` of the configured
bounds, and lies between them. -/
theorem uniDim_midpoint :
    uniDim = (cardSizeMin + cardSizeMax) / 2 ∧ uniDim = 250 ∧
    cardSizeMin ≤ uniDim ∧ uniDim ≤ cardSizeMax := by
  decide

/-! ## C5 -/

/-- C5: for a fixed candidate-pair list, the good-pair count is monotone in
the acceptance threshold: with `t1 ≤ t2`, at most as many pairs have
distance strictly below `t1` as have distance strictly below `t2`. -/
theorem goodCount_monotone (ms : List DMatch) (t1 t2 : ℚ) (h : t1 ≤ t2) :
    (goodMatchesOf ms t1).length ≤ (goodMatchesOf ms t2).length := by
  rw [goodMatchesOf_length, goodMatchesOf_length]
  refine List.countP_mono_left ?_
  intro m _ hm
  simp only [decide_eq_true_eq] at hm ⊢
  exact lt_of_lt_of_le hm h

/-- Witness for C5 at a concrete pair list and threshold pair. -/
theorem goodCount_monotone_witness :
    (0 : ℚ) ≤ 1 ∧
      (goodMatchesOf [⟨0, 0, 0⟩] 0).length ≤ (goodMatchesOf [⟨0, 0, 0⟩] 1).length :=
  ⟨by norm_num, goodCount_monotone [⟨0, 0, 0⟩] 0 1 (by norm_num)⟩

/-! ## C3 -/

/-- C3: the program contradicts the stated degenerate-descriptor design at
the failing input where the first symbol yields zero keypoints
(`descriptors_1 = []`): the comparison aborts with the matcher-training
error instead of resolving to a local non-match, whereas the claim says a
comparison with either symbol empty is a guaranteed non-match with no
error.  The converse degenerate case (second symbol empty, first
nonempty) is resolved as the claim describes: no candidate pairs, zero
good pairs, verdict false, no error. -/
theorem emptyFirstDescriptors_error :
    symbolCompare [] [[1]] = .error .flannTrainEmpty ∧
    symbolCompare [[1]] [] = .ok ([], false) := by
  constructor
  · rfl
  · with_unfolding_all rfl

/-! ## C1 -/

/-- C1: the verdict is true iff at least `goodMatchesMinLimit = 10` of the
candidate pairs have distance strictly below `goodDistance = 3/10`, and
every selected good pair is strictly below the threshold (a pair exactly at
the threshold is never selected). -/
theorem verdict_iff_goodCount (dA dB : List Descriptor) :
    (matchVerdict dA dB = true ↔
      goodMatchesMinLimit ≤
        (matchDescriptors dA dB).countP (fun m => m.distance < goodDistance)) ∧
    (symbolMatch dA dB).1.all (fun m => m.distance < goodDistance) = true := by
  constructor
  · simp only [matchVerdict, symbolMatch, decide_eq_true_eq]
    rw [goodMatchesOf_length,
      (sortMatches_perm (matchDescriptors dA dB)).countP_eq]
  · simp only [symbolMatch, goodMatchesOf, List.all_eq_true, List.mem_filter]
    intro m hm
    exact hm.2

/-! ## C6 -/

theorem cvRound_eq (x : ℚ) :
    cvRound x =
      (if x - ⌊x⌋ < 1 / 2 then ⌊x⌋
       else if 1 / 2 < x - ⌊x⌋ then ⌊x⌋ + 1
       else if ⌊x⌋ % 2 = 0 then ⌊x⌋ else ⌊x⌋ + 1) :=
  rfl

theorem cvRound_le_of_le {x : ℚ} {n : ℤ} (h : x ≤ (n : ℚ)) : cvRound x ≤ n := by
  have hfn : ⌊x⌋ ≤ n := by
    have := Int.floor_le_floor h
    simpa using this
  rw [cvRound_eq]
  by_cases h1 : x - ⌊x⌋ < 1 / 2
  · rw [if_pos h1]; exact hfn
  · have hpos : (0 : ℚ) < x - ⌊x⌋ := lt_of_lt_of_le (by norm_num) (le_of_not_lt h1)
    have hlt : (⌊x⌋ : ℚ) < (n : ℚ) := by
      have hfx : (⌊x⌋ : ℚ) < x := by linarith
      exact lt_of_lt_of_le hfx h
    have hfn1 : ⌊x⌋ + 1 ≤ n :=
      Int.add_one_le_of_lt (by exact_mod_cast hlt)
    rw [if_neg h1]
    by_cases h2 : 1 / 2 < x - ⌊x⌋
    · rw [if_pos h2]; exact hfn1
    · rw [if_neg h2]
      by_cases h3 : ⌊x⌋ % 2 = 0
      · rw [if_pos h3]; exact hfn
      · rw [if_neg h3]; exact hfn1

/-- C6: the pre-processing downscale leaves the image unchanged when its
larger dimension is at most `sizeLimit = 700`; otherwise both dimensions are
rescaled (and rounded) with the single factor `700 / dim`, and the larger
resulting dimension does not exceed 700 — the common factor is what
preserves the aspect ratio up to integer rounding. -/
theorem resize_spec (s : ImSize) :
    (max s.rows s.cols ≤ sizeLimit → resizeToLimit s = s) ∧
    (sizeLimit < max s.rows s.cols →
      resizeToLimit s =
        { rows := (cvRound ((s.rows : ℚ) *
            ((sizeLimit : ℚ) / (max s.rows s.cols : ℚ)))).toNat
          cols := (cvRound ((s.cols : ℚ) *
            ((sizeLimit : ℚ) / (max s.rows s.cols : ℚ)))).toNat } ∧
      max (resizeToLimit s).rows (resizeToLimit s).cols ≤ sizeLimit) := by
  constructor
  · intro hle
    simp [resizeToLimit, Nat.not_lt.mpr hle]
  · intro hgt
    have heq : resizeToLimit s =
        { rows := (cvRound ((s.rows : ℚ) *
            ((sizeLimit : ℚ) / (max s.rows s.cols : ℚ)))).toNat
          cols := (cvRound ((s.cols : ℚ) *
            ((sizeLimit : ℚ) / (max s.rows s.cols : ℚ)))).toNat } := by
      simp [resizeToLimit, hgt]
    refine ⟨heq, ?_⟩
    have hdim : (0 : ℚ) < (max s.rows s.cols : ℚ) := by
      have : 0 < max s.rows s.cols := lt_trans (by norm_num [sizeLimit]) hgt
      exact_mod_cast this
    have hscale : ∀ d : ℕ, d ≤ max s.rows s.cols →
        (cvRound ((d : ℚ) * ((sizeLimit : ℚ) / (max s.rows s.cols : ℚ)))).toNat ≤
          sizeLimit := by
      intro d hd
      have hx : (d : ℚ) * ((sizeLimit : ℚ) / (max s.rows s.cols : ℚ)) ≤
          ((sizeLimit : ℤ) : ℚ) := by
        rw [mul_div_assoc']
        rw [div_le_iff₀ hdim]
        push_cast
        have : (d : ℚ) ≤ (max s.rows s.cols : ℚ) := by exact_mod_cast hd
        nlinarith [this]
      have := cvRound_le_of_le hx
      exact Int.toNat_le.mpr (by exact_mod_cast this)
    rw [heq]
    simp only [max_le_iff]
    exact ⟨hscale s.rows (le_max_left _ _), hscale s.cols (le_max_right _ _)⟩

/-- Witness for C6 at a concrete oversized image. -/
theorem resize_spec_witness :
    sizeLimit < max 1400 700 ∧
      max (resizeToLimit ⟨1400, 700⟩).rows (resizeToLimit ⟨1400, 700⟩).cols ≤
        sizeLimit :=
  ⟨by norm_num [sizeLimit],
    ((resize_spec ⟨1400, 700⟩).2 (by norm_num [sizeLimit])).2⟩

/-! ## C4 -/

theorem bestFrom_eq_none_iff (q : Descriptor) (descA : List Descriptor) :
    bestFrom q descA = none ↔ descA = [] := by
  cases descA with
  | nil => simp [bestFrom]
  | cons d rest =>
    simp only [bestFrom]
    cases h : bestFrom q rest with
    | none => simp
    | some r =>
      obtain ⟨j, dj⟩ := r
      by_cases hlt : dj < l2sq d q <;> simp [hlt]

theorem bestFrom_spec (q : Descriptor) :
    ∀ (descA : List Descriptor) (j : ℕ) (d : ℚ),
      bestFrom q descA = some (j, d) →
      j < descA.length ∧ d = l2sq (descA.getD j []) q ∧
        ∀ t, t < descA.length → d ≤ l2sq (descA.getD t []) q := by
  intro descA
  induction descA with
  | nil => intro j d h; exact absurd h (by simp [bestFrom])
  | cons hd rest ih =>
    intro j d h
    cases hb : bestFrom q rest with
    | none =>
      simp only [bestFrom, hb, Option.some.injEq, Prod.mk.injEq] at h
      obtain ⟨h1, h2⟩ := h
      subst h1; subst h2
      have hrest : rest = [] := (bestFrom_eq_none_iff q rest).mp hb
      subst hrest
      refine ⟨by simp, by simp, ?_⟩
      intro t ht
      have ht0 : t = 0 := by simpa using ht
      subst ht0
      simp
    | some r =>
      obtain ⟨j', dj⟩ := r
      obtain ⟨hj', hd', hmin⟩ := ih j' dj hb
      by_cases hlt : dj < l2sq hd q
      · simp only [bestFrom, hb, if_pos hlt, Option.some.injEq,
          Prod.mk.injEq] at h
        obtain ⟨h1, h2⟩ := h
        subst h1; subst h2
        refine ⟨by simpa using hj', by simpa using hd', ?_⟩
        intro t ht
        cases t with
        | zero => exact le_of_lt (by simpa using hlt)
        | succ u => simpa using hmin u (by simpa using ht)
      · simp only [bestFrom, hb, if_neg hlt, Option.some.injEq,
          Prod.mk.injEq] at h
        obtain ⟨h1, h2⟩ := h
        subst h1; subst h2
        refine ⟨by simp, by simp, ?_⟩
        intro t ht
        cases t with
        | zero => simp
        | succ u =>
          have h1 : l2sq hd q ≤ dj := le_of_not_lt hlt
          simpa using le_trans h1 (hmin u (by simpa using ht))

theorem bestFrom_isSome (q : Descriptor) (descA : List Descriptor)
    (h : descA ≠ []) : ∃ j d, bestFrom q descA = some (j, d) := by
  cases hb : bestFrom q descA with
  | none => exact absurd ((bestFrom_eq_none_iff q descA).mp hb) h
  | some r => exact ⟨r.1, r.2, by simp [hb]⟩

theorem matchFromIdx_spec (descA : List Descriptor) (h : descA ≠ []) :
    ∀ (dB : List Descriptor) (k : ℕ),
      (matchFromIdx descA k dB).length = dB.length ∧
      ∀ p, p < dB.length →
        ∃ j d, (matchFromIdx descA k dB).getD p ⟨0, 0, 0⟩ = ⟨k + p, j, d⟩ ∧
          bestFrom (dB.getD p []) descA = some (j, d) := by
  intro dB
  induction dB with
  | nil => intro k; exact ⟨rfl, by intro p hp; exact absurd hp (by simp)⟩
  | cons q rest ih =>
    intro k
    obtain ⟨j, d, hb⟩ := bestFrom_isSome q descA h
    simp only [matchFromIdx, hb]
    obtain ⟨ihlen, ihget⟩ := ih (k + 1)
    refine ⟨by simpa using ihlen, ?_⟩
    intro p hp
    cases p with
    | zero => exact ⟨j, d, by simp, by simpa using hb⟩
    | succ p' =>
      obtain ⟨j', d', hget, hbest⟩ := ihget p' (by simpa using hp)
      refine ⟨j', d', ?_, by simpa using hbest⟩
      have harith : k + 1 + p' = k + (p' + 1) := by omega
      simpa [harith] using hget

/-- C4 as stated: every object pair's matcher call sequence produces a
candidate-pair list with exactly one candidate per card-B descriptor.
This fails when card A's object has an empty descriptor set: the sequence
aborts at `matcher->train()` and produces no candidate list at all. -/
def oneCandidatePerQuery : Prop :=
  ∀ dA dB : List Descriptor,
    ∃ ms, trainAndMatch dA dB = .ok ms ∧ ms.length = dB.length

/-- Counterexample to C4 as stated: with an empty trained descriptor set
and one query descriptor the call sequence aborts at training with an
error, so no candidate list (of any length) is produced. -/
theorem oneCandidatePerQuery_cex : ¬ oneCandidatePerQuery := by
  intro h
  obtain ⟨ms, hok, _⟩ := h [] [[0]]
  simp [trainAndMatch] at hok

/-- C4 amended: whenever card A's object's descriptor set is nonempty, the
matcher call sequence succeeds and matching is one-sided and asymmetric —
the produced list has exactly one candidate per card-B descriptor, in
query order; each candidate's `queryIdx` indexes `descB`, its `trainIdx`
indexes `descA`, its distance is the distance from its `descB` descriptor
to that trained `descA` descriptor, and no trained descriptor is closer:
`descB` is queried against the index built from `descA`, never the other
way around.  When card A's descriptor set is empty the sequence instead
aborts at training with an uncaught error. -/
theorem matching_one_sided (dA dB : List Descriptor) :
    (dA = [] → trainAndMatch dA dB = .error .flannTrainEmpty) ∧
    (dA ≠ [] →
      trainAndMatch dA dB = .ok (matchDescriptors dA dB) ∧
      (matchDescriptors dA dB).length = dB.length ∧
      ∀ p, p < dB.length →
        ((matchDescriptors dA dB).getD p ⟨0, 0, 0⟩).queryIdx = p ∧
        ((matchDescriptors dA dB).getD p ⟨0, 0, 0⟩).trainIdx < dA.length ∧
        ((matchDescriptors dA dB).getD p ⟨0, 0, 0⟩).distance =
          l2sq (dA.getD ((matchDescriptors dA dB).getD p ⟨0, 0, 0⟩).trainIdx [])
            (dB.getD p []) ∧
        ∀ t, t < dA.length →
          ((matchDescriptors dA dB).getD p ⟨0, 0, 0⟩).distance ≤
            l2sq (dA.getD t []) (dB.getD p [])) := by
  constructor
  · intro hnil
    subst hnil
    rfl
  · intro h
    have hok : trainAndMatch dA dB = .ok (matchDescriptors dA dB) := by
      have hne : dA.isEmpty = false := by
        cases hA : dA with
        | nil => exact absurd hA h
        | cons d rest => simp
      simp [trainAndMatch, hne, matchDescriptors]
    obtain ⟨hlen, hget⟩ := matchFromIdx_spec dA h dB 0
    refine ⟨hok, hlen, ?_⟩
    intro p hp
    obtain ⟨j, d, hgp, hb⟩ := hget p hp
    obtain ⟨hjlt, hdist, hmin⟩ := bestFrom_spec (dB.getD p []) dA j d hb
    rw [matchDescriptors, hgp]
    exact ⟨by simp, hjlt, hdist, hmin⟩

/-- Witness for C4 (amended) at a concrete descriptor pair. -/
theorem matching_one_sided_witness :
    ([[(0 : ℚ)]] : List Descriptor) ≠ [] ∧
      trainAndMatch [[(0 : ℚ)]] [[1]] = .ok (matchDescriptors [[(0 : ℚ)]] [[1]]) ∧
      (matchDescriptors [[(0 : ℚ)]] [[1]]).length = 1 :=
  ⟨by simp,
    ((matching_one_sided [[(0 : ℚ)]] [[1]]).2 (by simp)).1,
    ((matching_one_sided [[(0 : ℚ)]] [[1]]).2 (by simp)).2.1⟩

/-! ## C8 -/

/-- C8: when card detection on the processed image returns no cards, the
run reports "No cards found" and exits with status 0 (an ordinary exit, not
a crash or error propagation). -/
theorem noCards_exit_ok (env : Env) (h1 : env.argc = 2)
    (h2 : env.dirExists = true) (h3 : 3 < env.files.length)
    (h4 : env.cards = []) :
    run env = .exit 0 [.openFile, .noCardsFound] := by
  have hfiles : env.files.isEmpty = false := by
    cases hf : env.files with
    | nil => rw [hf] at h3; simp at h3
    | cons a l => simp
  have hget : env.files[3]? = some (env.files[3]) :=
    List.getElem?_eq_getElem h3
  simp only [run, h1, h2, hfiles, hget]
  simp [processFile, h4]

/-- Witness for C8 at a concrete environment. -/
theorem noCards_exit_ok_witness :
    run ⟨2, true, [0, 1, 2, 3], []⟩ = .exit 0 [.openFile, .noCardsFound] :=
  noCards_exit_ok ⟨2, true, [0, 1, 2, 3], []⟩ rfl rfl (by simp) rfl

/-! ## C9 -/

/-- C9 as stated: a nonexistent directory path or an empty matching-file
listing exits with a non-zero status after printing the usage message. -/
def failureExitsWithUsage : Prop :=
  ∀ env : Env, env.argc = 2 → (env.dirExists = false ∨ env.files = []) →
    ∃ c tr, run env = .exit c tr ∧ c ≠ 0 ∧ Msg.usage ∈ tr

/-- Counterexample to C9 as stated: with a nonexistent path the program
prints only the path-not-found message and returns 1 — `help()` is not
called on that branch, so no usage message is printed. -/
theorem failureExitsWithUsage_cex : ¬ failureExitsWithUsage := by
  intro h
  obtain ⟨c, tr, hrun, hc, hu⟩ := h ⟨2, false, [], []⟩ rfl (Or.inl rfl)
  have hrun0 : run ⟨2, false, [], []⟩ = .exit 1 [.pathNotFound] := rfl
  rw [hrun0] at hrun
  simp only [Outcome.exit.injEq] at hrun
  obtain ⟨hc1, htr⟩ := hrun
  subst htr
  simp at hu

/-- Every message emitted while orchestrating the card comparisons is a
match-found message. -/
theorem matchMsgs_only_matchFound (recs : List ((ℕ × ℕ) × List Event)) :
    ∀ m ∈ matchMsgs recs, ∃ i j, m = .matchFound i j := by
  intro m hm
  simp only [matchMsgs, List.mem_flatMap, List.mem_filterMap] at hm
  obtain ⟨pr, _, e, _, he⟩ := hm
  by_cases hv : e.verdict = true
  · rw [if_pos hv] at he
    simp only [Option.some.injEq] at he
    exact ⟨e.i, e.j, he.symm⟩
  · rw [if_neg hv] at he
    exact absurd he (by simp)

/-- Every message in the per-file processing trace is the open-file trace,
the uniform-size trace, the no-cards report, or a match-found report. -/
theorem processFile_msgs (cards : List Card) :
    ∀ m ∈ (processFile cards).2,
      m = .openFile ∨ m = .noCardsFound ∨ m = .uniformSize ∨
        ∃ i j, m = .matchFound i j := by
  intro m hm
  unfold processFile at hm
  split at hm
  · simp only [List.mem_cons, List.not_mem_nil, or_false] at hm
    rcases hm with h' | h'
    · exact Or.inl h'
    · exact Or.inr (Or.inl h')
  · simp only [List.cons_append, List.nil_append, List.mem_cons] at hm
    rcases hm with h' | h' | h'
    · exact Or.inl h'
    · exact Or.inr (Or.inr (Or.inl h'))
    · exact Or.inr (Or.inr (Or.inr
        (matchMsgs_only_matchFound (orchestrate cards) m h')))

/-- C9 amended: with a nonexistent path the program exits with status 1
after printing only the path-not-found error (no usage message); with an
existing path but no matching image file it exits with status 1 after the
no-images message followed by the usage message; a well-formed invocation
(two arguments, existing path, nonempty listing) prints none of the
failure messages. -/
theorem failureExits_amended (env : Env) (h : env.argc = 2) :
    (env.dirExists = false → run env = .exit 1 [.pathNotFound]) ∧
    (env.dirExists = true → env.files = [] →
      run env = .exit 1 [.noImagesFound, .usage]) ∧
    (env.dirExists = true → env.files ≠ [] →
      Msg.pathNotFound ∉ (run env).trace ∧
      Msg.noImagesFound ∉ (run env).trace ∧
      Msg.usage ∉ (run env).trace) := by
  refine ⟨?_, ?_, ?_⟩
  · intro hdir
    simp [run, h, hdir]
  · intro hdir hfiles
    simp [run, h, hdir, hfiles]
  · intro hdir hfiles
    have hne : env.files.isEmpty = false := by
      cases hf : env.files with
      | nil => exact absurd hf hfiles
      | cons a l => simp
    cases hget : env.files[3]? with
    | none => simp [run, h, hdir, hne, hget, Outcome.trace]
    | some f =>
      simp [run, h, hdir, hne, hget, Outcome.trace]
      refine ⟨?_, ?_, ?_⟩ <;>
      · intro hmem
        rcases processFile_msgs env.cards _ hmem with h' | h' | h' | ⟨i, j, h'⟩ <;>
          simp at h'

/-- Witness for C9 (amended) at a concrete environment with an existing
directory and an empty listing. -/
theorem failureExits_amended_witness :
    run ⟨2, true, [], []⟩ = .exit 1 [.noImagesFound, .usage] :=
  (failureExits_amended ⟨2, true, [], []⟩ rfl).2.1 rfl rfl

/-! ## C10 -/

/-- C10: the entry point unconditionally selects `files[3]`; with between
one and three matching files this is an out-of-bounds `QStringList` index
(undefined behaviour, modelled as a crash with an empty trace: no image is
opened or processed), while with at least four files the access is in
bounds and the run terminates with an ordinary exit. -/
theorem hardSelectedIndex_oob (env : Env) (h1 : env.argc = 2)
    (h2 : env.dirExists = true) :
    (env.files ≠ [] → env.files.length ≤ 3 → run env = .crash []) ∧
    (3 < env.files.length → ∃ c tr, run env = .exit c tr) := by
  constructor
  · intro hne hlen
    have hemp : env.files.isEmpty = false := by
      cases hf : env.files with
      | nil => exact absurd hf hne
      | cons a l => simp
    have hget : env.files[3]? = none := List.getElem?_eq_none hlen
    simp [run, h1, h2, hemp, hget]
  · intro hlen
    have hemp : env.files.isEmpty = false := by
      cases hf : env.files with
      | nil => rw [hf] at hlen; simp at hlen
      | cons a l => simp
    have hget : env.files[3]? = some (env.files[3]) :=
      List.getElem?_eq_getElem hlen
    refine ⟨(processFile env.cards).1, (processFile env.cards).2, ?_⟩
    simp [run, h1, h2, hemp, hget]

/-- Witness for C10 at a concrete one-file directory. -/
theorem hardSelectedIndex_oob_witness :
    run ⟨2, true, [5], []⟩ = .crash [] :=
  (hardSelectedIndex_oob ⟨2, true, [5], []⟩ rfl rfl).1 (by simp) (by simp)

/-! ## C2 -/

theorem innerScan_found_false (dA : Obj) (i : ℕ) :
    ∀ (objsB : List Obj) (j : ℕ), (innerScan dA i j objsB).2 = false →
      ∀ e ∈ (innerScan dA i j objsB).1, e.verdict = false := by
  intro objsB
  induction objsB with
  | nil => intro j _ e he; exact absurd he (by simp [innerScan])
  | cons b rest ih =>
    intro j hfound e he
    by_cases hv : matchVerdict dA b = true
    · rw [innerScan, if_pos hv] at hfound
      exact absurd hfound (by simp)
    · rw [innerScan, if_neg hv] at hfound he
      rcases (List.mem_cons).mp he with rfl | htail
      · rfl
      · exact ih (j + 1) hfound e htail

theorem innerScan_true_last (dA : Obj) (i : ℕ) :
    ∀ (objsB : List Obj) (j : ℕ) (e : Event),
      e ∈ (innerScan dA i j objsB).1 → e.verdict = true →
      (∃ pre, (innerScan dA i j objsB).1 = pre ++ [e]) ∧
        (innerScan dA i j objsB).2 = true := by
  intro objsB
  induction objsB with
  | nil => intro j e he; exact absurd he (by simp [innerScan])
  | cons b rest ih =>
    intro j e he hv
    by_cases hm : matchVerdict dA b = true
    · rw [innerScan, if_pos hm] at he ⊢
      rcases (List.mem_cons).mp he with rfl | htail
      · exact ⟨⟨[], rfl⟩, rfl⟩
      · exact absurd htail (by simp)
    · rw [innerScan, if_neg hm] at he ⊢
      rcases (List.mem_cons).mp he with rfl | htail
      · exact absurd hv (by simp)
      · obtain ⟨⟨pre, hpre⟩, hfound⟩ := ih (j + 1) e htail hv
        exact ⟨⟨⟨i, j, false⟩ :: pre, by simp [hpre]⟩, hfound⟩

theorem outerScan_true_last :
    ∀ (objsA : List Obj) (i : ℕ) (objsB : List Obj) (e : Event),
      e ∈ outerScan i objsA objsB → e.verdict = true →
      ∃ pre, outerScan i objsA objsB = pre ++ [e] := by
  intro objsA
  induction objsA with
  | nil => intro i objsB e he; exact absurd he (by simp [outerScan])
  | cons a restA ih =>
    intro i objsB e he hv
    by_cases hr : (innerScan a i 0 objsB).2 = true
    · rw [outerScan, if_pos hr] at he ⊢
      exact ((innerScan_true_last a i objsB 0 e he hv).1)
    · rw [outerScan, if_neg hr] at he ⊢
      rcases (List.mem_append).mp he with hin | htail
      · have := innerScan_found_false a i objsB 0
          (Bool.not_eq_true _ ▸ hr) e hin
        rw [hv] at this
        exact absurd this (by simp)
      · obtain ⟨pre, hpre⟩ := ih (i + 1) objsB e htail hv
        exact ⟨(innerScan a i 0 objsB).1 ++ pre, by
          rw [hpre, List.append_assoc]⟩

theorem orchestrateFrom_snd (a : ℕ) (cards : List Card) :
    ∀ rec ∈ orchestrateFrom a cards, ∃ cA cB, rec.2 = compareCards cA cB := by
  induction cards generalizing a with
  | nil => intro rec hrec; exact absurd hrec (by simp [orchestrateFrom])
  | cons card rest ih =>
    intro rec hrec
    rw [orchestrateFrom] at hrec
    rcases (List.mem_append).mp hrec with hin | htail
    · obtain ⟨p, _, hp⟩ := List.mem_map.mp hin
      exact ⟨card, p.2, by rw [← hp]⟩
    · exact ih (a + 1) rec htail

theorem orchestrateFrom_map_fst (k : ℕ) (cards : List Card) :
    (orchestrateFrom k cards).map Prod.fst =
      (match cards with
        | [] => []
        | _ :: rest =>
          (List.range rest.length).map (fun t => (k, k + 1 + t)) ++
            (orchestrateFrom (k + 1) rest).map Prod.fst) := by
  cases cards with
  | nil => rfl
  | cons card rest =>
    simp only [orchestrateFrom, List.map_append, List.map_map]
    congr 1
    rw [← List.enum_map_fst rest, List.map_map]
    rfl

theorem orchestrateFrom_pairs (cards : List Card) :
    ∀ (k a b : ℕ), a < b → b < cards.length →
      (k + a, k + b) ∈ (orchestrateFrom k cards).map Prod.fst := by
  induction cards with
  | nil => intro k a b _ hb; exact absurd hb (by simp)
  | cons card rest ih =>
    intro k a b hab hb
    rw [orchestrateFrom_map_fst]
    simp only [List.mem_append]
    cases a with
    | zero =>
      left
      refine List.mem_map.mpr ⟨b - 1, List.mem_range.mpr (by
        simp only [List.length_cons] at hb; omega), ?_⟩
      simp only [Prod.mk.injEq]
      omega
    | succ a1 =>
      right
      have hmem := ih (k + 1) a1 (b - 1) (by omega)
        (by simp only [List.length_cons] at hb; omega)
      have harith : ((k + 1) + a1, (k + 1) + (b - 1)) =
          (k + (a1 + 1), k + b) := by
        simp only [Prod.mk.injEq]
        omega
      rw [harith] at hmem
      exact hmem

/-- C2: once an object-pair comparison of a card pair produces a true
verdict, it is the final comparison performed for that card pair — no
further object of card two is compared against that card-one object
(inner `break`), and no further card-one object is compared at all for
that pair (outer `break` on `matchFound`); and every card pair `(a, b)`
with `a < b` still appears in the batch trace, so the first card is still
compared against the cards that follow. -/
theorem earlyExit_firstMatch (cards : List Card) :
    (∀ rec ∈ orchestrate cards, ∀ e ∈ rec.2, e.verdict = true →
      ∃ pre, rec.2 = pre ++ [e]) ∧
    (∀ a b, a < b → b < cards.length →
      (a, b) ∈ (orchestrate cards).map Prod.fst) := by
  constructor
  · intro rec hrec e he hv
    obtain ⟨cA, cB, hsnd⟩ := orchestrateFrom_snd 0 cards rec hrec
    rw [hsnd] at he ⊢
    exact outerScan_true_last cA 0 cB e he hv
  · intro a b hab hb
    have := orchestrateFrom_pairs cards 0 a b hab hb
    simpa using this

/-- A ten-keypoint object descriptor set whose self-distance is zero. -/
def objW : Obj := List.replicate 10 [(0 : ℚ)]

/-- Witness for C2 at a concrete two-card batch whose single object pair
matches: the matching event is the last (and only) event of the pair
trace, and the pair `(0, 1)` appears in the batch trace. -/
theorem earlyExit_firstMatch_witness :
    (∃ pre, (((0, 1), [(⟨0, 0, true⟩ : Event)]) :
        (ℕ × ℕ) × List Event).2 = pre ++ [⟨0, 0, true⟩]) ∧
      (0, 1) ∈ (orchestrate [[objW], [objW]]).map Prod.fst := by
  have horch : orchestrate [[objW], [objW]] = [((0, 1), [⟨0, 0, true⟩])] := by
    with_unfolding_all rfl
  constructor
  · exact (earlyExit_firstMatch [[objW], [objW]]).1
      ((0, 1), [⟨0, 0, true⟩]) (by rw [horch]; simp) ⟨0, 0, true⟩
      (by simp) rfl
  · exact (earlyExit_firstMatch [[objW], [objW]]).2 0 1 (by omega) (by simp)

end DGV
